/-
Verification of the spotify-mcp-server cache and resilient-client subsystem.

This file embeds, as Lean definitions, the parts of the repository that the
claims concern:
  * `LRUMemoryCache` (cache.py, class LRUMemoryCache): the ordered-dict LRU
    tier; the OrderedDict is modelled as an association list whose head is
    the least-recently-used end and whose last element is the
    most-recently-used end, mirroring insertion/move_to_end order.
  * `SpotifyCache` (cache.py, class SpotifyCache): the hybrid memory + SQLite
    cache; the SQLite table is modelled as an association list of rows keyed
    by cache_key (the PRIMARY KEY makes keys unique, INSERT OR REPLACE is
    modelled as erase-then-append).
  * `generate_key` (cache.py, SpotifyCache._generate_key): the cache-key
    derivation; hashlib.md5(...).hexdigest() is kept abstract as an explicit
    function argument `md5`, since no property proved here depends on the
    internals of MD5 (only on it being a function of the joined string).
  * `CachedSpotifyClient.get_audio_features` (cache.py): the facade control
    flow, with the cache lookup, the origin fetch and the cache write step
    supplied as explicit effect outcomes.
  * `SpotifyClient._make_request` / `_handle_response` / `_get_retry_delay`
    (spotify_client.py): the status-code driven retry loop, modelled as a
    function from a response sequence to the performed request count, the
    slept delays and the final outcome.
  * `TokenManager.get_valid_token` / `_refresh_token` (token_manager.py):
    the double-checked-lock refresh protocol, modelled as an interleaving
    transition system over N cooperative tasks.

Timestamps are integers (seconds); payloads are opaque strings (the cache
never inspects payload contents, and json round-tripping is treated as the
identity).
-/

import Mathlib

/-- Opaque cached payload (a JSON object in the source; never inspected). -/
abbrev Payload := String

/-- cache.py, class CacheEntry: one in-memory cache entry with metadata. -/
structure CacheEntry where
  data : Payload
  cached_at : Int
  expires_at : Int
  access_count : Nat
  last_accessed : Int
deriving Repr, DecidableEq

/-- First value bound to key `k` in an association list (dict lookup). -/
def assocFind (k : String) : List (String × α) → Option α
  | [] => none
  | (k2, v) :: rest => if k2 = k then some v else assocFind k rest

/-- Remove the binding of key `k` (dict `del`; keys are unique in context). -/
def assocErase (k : String) : List (String × α) → List (String × α)
  | [] => []
  | p :: rest => if p.1 = k then assocErase k rest else p :: assocErase k rest

/-- cache.py, class LRUMemoryCache: OrderedDict-backed LRU tier.  The list
head is the least-recently-used entry, the last element the
most-recently-used. -/
structure LRUMemoryCache where
  max_size : Nat
  cache : List (String × CacheEntry)
deriving Repr, DecidableEq

/-- Fresh, empty LRU cache of the given capacity (LRUMemoryCache.__init__). -/
def LRUMemoryCache.empty (maxSize : Nat) : LRUMemoryCache :=
  { max_size := maxSize, cache := [] }

/-- cache.py, LRUMemoryCache.get: returns the stored payload unless the key
is absent or `datetime.now() > entry.expires_at` (in which case the expired
entry is lazily deleted); on a hit the entry is bumped and moved to the
most-recently-used end.  Returns the result together with the new cache
state. -/
def LRUMemoryCache.get (c : LRUMemoryCache) (now : Int) (key : String) :
    Option Payload × LRUMemoryCache :=
  match assocFind key c.cache with
  | none => (none, c)
  | some entry =>
    if now > entry.expires_at then
      (none, { c with cache := assocErase key c.cache })
    else
      let entry2 := { entry with
        access_count := entry.access_count + 1, last_accessed := now }
      (some entry.data, { c with cache := assocErase key c.cache ++ [(key, entry2)] })

/-- cache.py, LRUMemoryCache.set eviction loop: `while len(cache) > max_size:
del cache[next(iter(cache))]` — repeatedly drop the head (the LRU end) until
the size is within the limit. -/
def evictOldest (maxSize : Nat) : List (String × CacheEntry) → List (String × CacheEntry)
  | [] => []
  | p :: rest =>
    if rest.length + 1 > maxSize then evictOldest maxSize rest else p :: rest

/-- The fresh entry built by LRUMemoryCache.set (access_count starts at 1,
cached_at and last_accessed at the current time). -/
def mkCacheEntry (now : Int) (data : Payload) (expires_at : Int) : CacheEntry :=
  { data := data, cached_at := now, expires_at := expires_at,
    access_count := 1, last_accessed := now }

/-- cache.py, LRUMemoryCache.set: delete any existing binding, append the
fresh entry at the most-recently-used end, then evict from the LRU end while
over capacity. -/
def LRUMemoryCache.set (c : LRUMemoryCache) (now : Int) (key : String)
    (data : Payload) (expires_at : Int) : LRUMemoryCache :=
  let newCache :=
    evictOldest c.max_size
      (assocErase key c.cache ++ [(key, mkCacheEntry now data expires_at)])
  { c with cache := newCache }

/-- The identifier argument of SpotifyCache._generate_key: either a plain
string or a list of ids (bulk use case, reduced via sort + hash). -/
inductive SpotifyIdentifier where
  | str (s : String)
  | list (ids : List String)

/-- Python `sorted` on a list of strings (lexicographic). -/
def sortedStrings (l : List String) : List String :=
  List.insertionSort (fun a b => a ≤ b) l

/-- The identifier as it appears in the key: the isinstance(identifier,
list) branch of SpotifyCache._generate_key replaces a list by
`md5("|".join(sorted(ids)))`; `md5` abstracts hashlib.md5(...).hexdigest(). -/
def identifierString (md5 : String → String) : SpotifyIdentifier → String
  | .str s => s
  | .list ids => md5 (String.intercalate "|" (sortedStrings ids))

/-- cache.py, SpotifyCache._generate_key: the key is the f-string
`spotify:user:{user_id}:{data_type}:{identifier}` after list identifiers
have been reduced via sort + hash. -/
def generate_key (md5 : String → String) (data_type : String)
    (identifier : SpotifyIdentifier) (user_id : String) : String :=
  "spotify:user:" ++ user_id ++ ":" ++ data_type ++ ":" ++ identifierString md5 identifier

/-- cache.py, class CacheConfig (defaults as in the source). -/
structure CacheConfig where
  enabled : Bool := true
  db_path : String := "spotify_cache.db"
  memory_limit : Nat := 1000
  default_ttl_hours : Int := 24
  audio_features_ttl_hours : Int := 168
  playlist_ttl_hours : Int := 1
  track_details_ttl_hours : Int := 24
  cleanup_interval_hours : Int := 24
deriving Repr, DecidableEq

/-- cache.py, SpotifyCache._get_ttl_hours: the per-data-type TTL table with
`default_ttl_hours` as the fallback. -/
def get_ttl_hours (config : CacheConfig) (data_type : String) : Int :=
  if data_type = "audio_features" then config.audio_features_ttl_hours
  else if data_type = "playlist" then config.playlist_ttl_hours
  else if data_type = "track_details" then config.track_details_ttl_hours
  else if data_type = "album_details" then config.track_details_ttl_hours
  else if data_type = "artist_details" then config.track_details_ttl_hours
  else config.default_ttl_hours

/-- cache.py, SpotifyCache.set line `ttl_hours = ttl_hours or
self._get_ttl_hours(data_type)`: Python `or` tests truthiness, so both `None`
and `0` fall through to the per-type default; any non-zero override is used. -/
def resolveTtlHours (ttl_hours : Option Int) (dflt : Int) : Int :=
  match ttl_hours with
  | none => dflt
  | some t => if t = 0 then dflt else t

/-- One row of the SQLite cache_entries table. -/
structure DiskRow where
  user_id : String
  data_type : String
  data : Payload
  expires_at : Int
  access_count : Nat
  last_accessed : Int
deriving Repr, DecidableEq

/-- SQLite INSERT OR REPLACE on the PRIMARY KEY cache_key. -/
def upsertRow (key : String) (row : DiskRow) (disk : List (String × DiskRow)) :
    List (String × DiskRow) :=
  assocErase key disk ++ [(key, row)]

/-- The SELECT of SpotifyCache.get: `WHERE cache_key = ? AND expires_at >
datetime('now')`, fetchone. -/
def diskLookup (disk : List (String × DiskRow)) (now : Int) (key : String) :
    Option DiskRow :=
  match disk with
  | [] => none
  | (k, row) :: rest =>
    if k = key ∧ row.expires_at > now then some row else diskLookup rest now key

/-- The UPDATE of SpotifyCache.get bumping access_count / last_accessed of
the looked-up row. -/
def bumpAccess (now : Int) (key : String) :
    List (String × DiskRow) → List (String × DiskRow) :=
  List.map fun p =>
    if p.1 = key then
      (p.1, { p.2 with access_count := p.2.access_count + 1, last_accessed := now })
    else p

/-- cache.py, class SpotifyCache: hybrid memory + SQLite cache state. -/
structure SpotifyCache where
  config : CacheConfig
  memory : LRUMemoryCache
  disk : List (String × DiskRow)

/-- cache.py, SpotifyCache.get: memory-first lookup; on a memory miss the
SQLite row (filtered on `expires_at > now`) is consulted, its access stats
bumped, and the memory tier repopulated with the row's payload under the
row's own expires_at. -/
def SpotifyCache.get (s : SpotifyCache) (now : Int) (md5 : String → String)
    (data_type : String) (identifier : SpotifyIdentifier) (user_id : String) :
    Option Payload × SpotifyCache :=
  let key := generate_key md5 data_type identifier user_id
  let memResult := s.memory.get now key
  match memResult.1 with
  | some d => (some d, { s with memory := memResult.2 })
  | none =>
    match diskLookup s.disk now key with
    | some row =>
      (some row.data,
       { s with
           memory := memResult.2.set now key row.data row.expires_at,
           disk := bumpAccess now key s.disk })
    | none => (none, { s with memory := memResult.2 })

/-- cache.py, SpotifyCache.set: resolve the TTL (`ttl_hours or default`),
compute `expires_at = now + timedelta(hours=ttl)`, INSERT OR REPLACE the
SQLite row, then store in the memory tier. -/
def SpotifyCache.set (s : SpotifyCache) (now : Int) (md5 : String → String)
    (data_type : String) (identifier : SpotifyIdentifier) (user_id : String)
    (data : Payload) (ttl_hours : Option Int) : SpotifyCache :=
  let key := generate_key md5 data_type identifier user_id
  let ttl := resolveTtlHours ttl_hours (get_ttl_hours s.config data_type)
  let expires_at := now + 3600 * ttl
  let row : DiskRow :=
    { user_id := user_id, data_type := data_type, data := data,
      expires_at := expires_at, access_count := 0, last_accessed := now }
  { s with
      disk := upsertRow key row s.disk,
      memory := s.memory.set now key data expires_at }

/-- cache.py, SpotifyCache.set_bulk: early return on an empty dict; one
shared resolved TTL and expires_at; executemany INSERT OR REPLACE; then each
entry is stored in the memory tier. -/
def SpotifyCache.set_bulk (s : SpotifyCache) (now : Int) (md5 : String → String)
    (data_type : String) (data_dict : List (String × Payload)) (user_id : String)
    (ttl_hours : Option Int) : SpotifyCache :=
  if data_dict.isEmpty then s
  else
    let ttl := resolveTtlHours ttl_hours (get_ttl_hours s.config data_type)
    let expires_at := now + 3600 * ttl
    let disk2 := data_dict.foldl
      (fun d p => upsertRow (generate_key md5 data_type (.str p.1) user_id)
        { user_id := user_id, data_type := data_type, data := p.2,
          expires_at := expires_at, access_count := 0, last_accessed := now } d)
      s.disk
    let memory2 := data_dict.foldl
      (fun m p =>
        m.set now (generate_key md5 data_type (.str p.1) user_id) p.2 expires_at)
      s.memory
    { s with disk := disk2, memory := memory2 }

/-- Outcome of the SpotifyCache.set call inside the facade (aiosqlite may
raise a storage exception). -/
inductive CacheWriteResult where
  | ok
  | storageError (msg : String)
deriving Repr, DecidableEq

/-- Outcome observed by a caller of the facade. -/
inductive FacadeResult where
  | ok (p : Payload)
  | apiFailure
  | cacheFailure (msg : String)
deriving Repr, DecidableEq

/-- cache.py, CachedSpotifyClient.get_audio_features, with its three effects
made explicit: the cache lookup result, the origin fetch result (`none`
models `client.get_audio_features` raising) and the cache-write step.  The
source wraps none of these in try/except, so a failing step ends the call
with that failure. -/
def getAudioFeaturesFacade (cached : Option Payload) (fetch : Option Payload)
    (write : Payload → CacheWriteResult) : FacadeResult :=
  match cached with
  | some d => .ok d
  | none =>
    match fetch with
    | none => .apiFailure
    | some features =>
      match write features with
      | .ok => .ok features
      | .storageError msg => .cacheFailure msg

/-- config.py, class APIConfig (fields relevant to the retry loop). -/
structure APIConfig where
  retry_attempts : Nat := 3
  retry_delays : List Int := [3, 15, 45]
  timeout : Int := 30
deriving Repr, DecidableEq

/-- spotify_client.py, SpotifyClient._get_retry_delay: index into
retry_delays by retry_count, reusing the last entry once past the end
(`retry_delays[-1]`; the config validator guarantees a non-empty list, so
the default for getLastD is never reached for valid configs). -/
def get_retry_delay (config : APIConfig) (retry_count : Nat) : Int :=
  if h : retry_count < config.retry_delays.length then
    config.retry_delays.get ⟨retry_count, h⟩
  else
    config.retry_delays.getLastD 0

/-- One HTTP response as seen by _handle_response: a status code, the parsed
`Retry-After` header if present (`int(response.headers.get("Retry-After",
60))` applies the default 60 when absent), and the parsed JSON body. -/
structure HttpResponse where
  status : Nat
  retryAfter : Option Int
  body : Payload
deriving Repr, DecidableEq

/-- spotify_client.py error taxonomy (SpotifyAPIError and subclasses), as
the final failure outcome of a request. -/
inductive SpotifyError where
  | rateLimit (retry_after : Int)
  | authentication
  | notFound
  | apiError (status_code : Nat)
deriving Repr, DecidableEq

/-- Trace of one logical call of SpotifyClient._make_request: how many HTTP
requests were issued, the asyncio.sleep delays performed between them (in
order), and the final outcome. -/
structure RequestRun where
  requests : Nat
  delays : List Int
  result : Except SpotifyError Payload
deriving Repr

/-- spotify_client.py, SpotifyClient._make_request composed with
_handle_response, for a call whose attempt number `retry_count` receives the
HTTP response `responses retry_count` (the transport itself succeeding).
Mirrors the source's dispatch order: 2xx success (204 yields an empty
payload), 429 retry after the server-directed Retry-After if
`retry_count < retry_attempts` else RateLimitError, 401 and 404 fatal
immediately, 5xx retry after the configured backoff delay if attempts remain
else SpotifyAPIError carrying the status code, and any other status fatal
with the status code. -/
def make_request (config : APIConfig) (responses : Nat → HttpResponse)
    (retry_count : Nat) : RequestRun :=
  if 200 ≤ (responses retry_count).status ∧ (responses retry_count).status < 300 then
    { requests := 1, delays := [],
      result := .ok (if (responses retry_count).status = 204 then ""
                     else (responses retry_count).body) }
  else if (responses retry_count).status = 429 then
    if retry_count < config.retry_attempts then
      { requests := (make_request config responses (retry_count + 1)).requests + 1,
        delays := (responses retry_count).retryAfter.getD 60 ::
          (make_request config responses (retry_count + 1)).delays,
        result := (make_request config responses (retry_count + 1)).result }
    else
      { requests := 1, delays := [],
        result := .error (.rateLimit ((responses retry_count).retryAfter.getD 60)) }
  else if (responses retry_count).status = 401 then
    { requests := 1, delays := [], result := .error .authentication }
  else if (responses retry_count).status = 404 then
    { requests := 1, delays := [], result := .error .notFound }
  else if 500 ≤ (responses retry_count).status ∧ (responses retry_count).status < 600 then
    if retry_count < config.retry_attempts then
      { requests := (make_request config responses (retry_count + 1)).requests + 1,
        delays := get_retry_delay config retry_count ::
          (make_request config responses (retry_count + 1)).delays,
        result := (make_request config responses (retry_count + 1)).result }
    else
      { requests := 1, delays := [],
        result := .error (.apiError (responses retry_count).status) }
  else
    { requests := 1, delays := [], result := .error (.apiError (responses retry_count).status) }
termination_by config.retry_attempts + 1 - retry_count

/-- Program counter of one task running TokenManager.get_valid_token while
the stored token is expired: `start` is the unlocked `_is_token_expired`
check, `waiting` is blocking on `_refresh_lock`, `locked` is the
double-check of expiry under the lock, `refreshing` is the
authenticator.refresh_access_token call, `done` is the return. -/
inductive TaskPC where
  | start
  | waiting
  | locked
  | refreshing
  | done
deriving Repr, DecidableEq

/-- Shared state of `n` concurrent TokenManager.get_valid_token callers:
each task's program counter, who holds `_refresh_lock`, whether the stored
token is currently expired, and how many
authenticator.refresh_access_token calls were issued. -/
structure TokenManagerState (n : Nat) where
  pcs : Fin n → TaskPC
  lock : Option (Fin n)
  expired : Bool
  refreshCount : Nat

/-- Interleaving semantics of token_manager.py get_valid_token /
_refresh_token under asyncio's cooperative scheduler: any runnable task may
take its next step.  Reads and writes of `expired` happen at the source's
check points; the refresh itself (which sets fresh tokens via set_tokens,
making the token unexpired) is the only writer and runs holding the lock. -/
inductive TokenManagerStep (n : Nat) :
    TokenManagerState n → TokenManagerState n → Prop where
  | observeExpired (s : TokenManagerState n) (i : Fin n)
      (hpc : s.pcs i = .start) (hexp : s.expired = true) :
      TokenManagerStep n s { s with pcs := Function.update s.pcs i .waiting }
  | observeFresh (s : TokenManagerState n) (i : Fin n)
      (hpc : s.pcs i = .start) (hexp : s.expired = false) :
      TokenManagerStep n s { s with pcs := Function.update s.pcs i .done }
  | acquire (s : TokenManagerState n) (i : Fin n)
      (hpc : s.pcs i = .waiting) (hlock : s.lock = none) :
      TokenManagerStep n s
        { s with pcs := Function.update s.pcs i .locked, lock := some i }
  | recheckExpired (s : TokenManagerState n) (i : Fin n)
      (hpc : s.pcs i = .locked) (hexp : s.expired = true) :
      TokenManagerStep n s { s with pcs := Function.update s.pcs i .refreshing }
  | recheckFresh (s : TokenManagerState n) (i : Fin n)
      (hpc : s.pcs i = .locked) (hexp : s.expired = false) :
      TokenManagerStep n s
        { s with pcs := Function.update s.pcs i .done, lock := none }
  | doRefresh (s : TokenManagerState n) (i : Fin n)
      (hpc : s.pcs i = .refreshing) :
      TokenManagerStep n s
        { s with pcs := Function.update s.pcs i .done, lock := none,
                 expired := false, refreshCount := s.refreshCount + 1 }

/-- Initial state of the contention scenario: every caller about to run
get_valid_token, the lock free, the token expired, no refresh issued yet. -/
def tokenManagerInit (n : Nat) : TokenManagerState n :=
  { pcs := fun _ => .start, lock := none, expired := true, refreshCount := 0 }

/-- Safety invariant of the refresh protocol: the lock is held by any task
inside the critical section, the token is expired exactly while no refresh
has happened, at most one refresh is ever issued, a task about to refresh
saw the token expired under the lock, and no task finishes while the token
is still expired. -/
def tokenManagerInv {n : Nat} (s : TokenManagerState n) : Prop :=
  (∀ i, (s.pcs i = .locked ∨ s.pcs i = .refreshing) → s.lock = some i) ∧
  (s.expired = true ↔ s.refreshCount = 0) ∧
  s.refreshCount ≤ 1 ∧
  (∀ i, s.pcs i = .refreshing → s.expired = true) ∧
  (s.expired = true → ∀ i, s.pcs i ≠ .done)

/-- The keys currently stored in the LRU tier, in recency order (head =
least recently used). -/
def keysOf (c : LRUMemoryCache) : List String :=
  c.cache.map Prod.fst

/-- Repeated LRUMemoryCache.set of a sequence of (key, payload) items with a
shared expiry, in list order (the test-scenario driver for the LRU claims). -/
def lruInsertAll (c : LRUMemoryCache) (now : Int) (expires_at : Int)
    (items : List (String × Payload)) : LRUMemoryCache :=
  items.foldl (fun m p => m.set now p.1 p.2 expires_at) c

/- ------------------------------------------------------------------ -/
/- Helper lemmas about the association-list primitives.               -/
/- ------------------------------------------------------------------ -/

theorem assocFind_some_mem {α : Type} {k : String} {v : α} :
    ∀ {l : List (String × α)}, assocFind k l = some v → (k, v) ∈ l := by
  intro l
  induction l with
  | nil => intro h; simp [assocFind] at h
  | cons p rest ih =>
    obtain ⟨k2, v2⟩ := p
    intro h
    simp only [assocFind] at h
    by_cases hk : k2 = k
    · rw [if_pos hk] at h
      have hv : v2 = v := by simpa using h
      subst hk
      subst hv
      exact List.mem_cons_self _ _
    · rw [if_neg hk] at h
      exact List.mem_cons_of_mem _ (ih h)

theorem assocFind_eq_none_iff {α : Type} {k : String} :
    ∀ {l : List (String × α)}, assocFind k l = none ↔ k ∉ l.map Prod.fst := by
  intro l
  induction l with
  | nil => simp [assocFind]
  | cons p rest ih =>
    simp only [assocFind, List.map_cons, List.mem_cons]
    by_cases hk : p.1 = k
    · rw [if_pos hk]
      simp [hk]
    · rw [if_neg hk]
      rw [ih]
      constructor
      · intro h hmem
        rcases hmem with h1 | h2
        · exact hk h1.symm
        · exact h h2
      · intro h hmem
        exact h (Or.inr hmem)

theorem assocErase_subset {α : Type} {k : String} {p : String × α} :
    ∀ {l : List (String × α)}, p ∈ assocErase k l → p ∈ l := by
  intro l
  induction l with
  | nil => intro h; simp [assocErase] at h
  | cons q rest ih =>
    intro h
    simp only [assocErase] at h
    by_cases hk : q.1 = k
    · rw [if_pos hk] at h
      exact List.mem_cons_of_mem _ (ih h)
    · rw [if_neg hk] at h
      rcases List.mem_cons.mp h with h1 | h2
      · exact h1 ▸ List.mem_cons_self _ _
      · exact List.mem_cons_of_mem _ (ih h2)

theorem assocErase_of_not_mem {α : Type} {k : String} :
    ∀ {l : List (String × α)}, k ∉ l.map Prod.fst → assocErase k l = l := by
  intro l
  induction l with
  | nil => intro _; rfl
  | cons q rest ih =>
    obtain ⟨k2, v2⟩ := q
    intro h
    simp only [List.map_cons, List.mem_cons] at h
    push_neg at h
    have hk : ¬ k2 = k := fun he => h.1 he.symm
    simp only [assocErase, if_neg hk]
    rw [ih h.2]

theorem not_mem_map_fst_assocErase {α : Type} {k : String} :
    ∀ {l : List (String × α)}, k ∉ (assocErase k l).map Prod.fst := by
  intro l
  induction l with
  | nil => simp [assocErase]
  | cons q rest ih =>
    simp only [assocErase]
    by_cases hk : q.1 = k
    · rw [if_pos hk]; exact ih
    · rw [if_neg hk]
      simp only [List.map_cons, List.mem_cons]
      intro h
      rcases h with h1 | h2
      · exact hk h1.symm
      · exact ih h2

theorem assocFind_append_of_not_mem_left {α : Type} {k : String}
    {l2 : List (String × α)} :
    ∀ {l1 : List (String × α)}, k ∉ l1.map Prod.fst →
      assocFind k (l1 ++ l2) = assocFind k l2 := by
  intro l1
  induction l1 with
  | nil => intro _; rfl
  | cons q rest ih =>
    obtain ⟨k2, v2⟩ := q
    intro h
    simp only [List.map_cons, List.mem_cons] at h
    push_neg at h
    have hk : ¬ k2 = k := fun he => h.1 he.symm
    simp only [List.cons_append, assocFind, if_neg hk]
    exact ih h.2

theorem assocFind_eq_some_of_mem_nodup {α : Type} {k : String} {v : α} :
    ∀ {l : List (String × α)}, (k, v) ∈ l → (l.map Prod.fst).Nodup →
      assocFind k l = some v := by
  intro l
  induction l with
  | nil => intro h; simp at h
  | cons q rest ih =>
    intro hmem hnodup
    simp only [List.map_cons, List.nodup_cons] at hnodup
    rcases List.mem_cons.mp hmem with h1 | h2
    · simp [assocFind, ← h1]
    · have hk : q.1 ≠ k := by
        intro he
        exact hnodup.1 (he ▸ (List.mem_map.mpr ⟨(k, v), h2, rfl⟩))
      simp only [assocFind, if_neg hk]
      exact ih h2 hnodup.2

theorem length_assocErase_of_not_mem {α : Type} {k : String}
    {l : List (String × α)} (h : k ∉ l.map Prod.fst) :
    (assocErase k l).length = l.length := by
  rw [assocErase_of_not_mem h]

theorem map_fst_assocErase_nodup {α : Type} {k : String} :
    ∀ {l : List (String × α)}, (l.map Prod.fst).Nodup →
      (assocErase k l).map Prod.fst = (l.map Prod.fst).erase k := by
  intro l
  induction l with
  | nil => intro _; rfl
  | cons q rest ih =>
    intro hnodup
    simp only [List.map_cons, List.nodup_cons] at hnodup
    simp only [assocErase]
    by_cases hk : q.1 = k
    · rw [if_pos hk]
      have : k ∉ rest.map Prod.fst := hk ▸ hnodup.1
      rw [assocErase_of_not_mem this, List.map_cons, hk, List.erase_cons_head]
    · rw [if_neg hk]
      simp only [List.map_cons]
      rw [List.erase_cons_tail, ih hnodup.2]
      simp [hk]

theorem evictOldest_eq_drop (m : Nat) :
    ∀ (l : List (String × CacheEntry)), evictOldest m l = l.drop (l.length - m) := by
  intro l
  induction l with
  | nil => simp [evictOldest]
  | cons p rest ih =>
    simp only [evictOldest]
    by_cases h : rest.length + 1 > m
    · rw [if_pos h, ih]
      have harith : (p :: rest).length - m = (rest.length - m) + 1 := by
        simp only [List.length_cons]
        omega
      rw [harith, List.drop_succ_cons]
    · rw [if_neg h]
      have : (p :: rest).length - m = 0 := by
        simp only [List.length_cons]
        omega
      rw [this, List.drop_zero]

theorem evictOldest_of_le {m : Nat} {l : List (String × CacheEntry)}
    (h : l.length ≤ m) : evictOldest m l = l := by
  rw [evictOldest_eq_drop]
  have : l.length - m = 0 := by omega
  rw [this, List.drop_zero]

theorem evictOldest_of_len_succ {m : Nat} {l : List (String × CacheEntry)}
    (h : l.length = m + 1) : evictOldest m l = l.tail := by
  rw [evictOldest_eq_drop]
  have : l.length - m = 1 := by omega
  rw [this, ← List.drop_one]

theorem diskLookup_some_mem {k : String} {row : DiskRow} {now : Int} :
    ∀ {l : List (String × DiskRow)}, diskLookup l now k = some row → (k, row) ∈ l := by
  intro l
  induction l with
  | nil => intro h; simp [diskLookup] at h
  | cons q rest ih =>
    intro h
    simp only [diskLookup] at h
    by_cases hc : q.1 = k ∧ q.2.expires_at > now
    · rw [if_pos hc] at h
      cases q
      simp_all
    · rw [if_neg hc] at h
      exact List.mem_cons_of_mem _ (ih h)

theorem diskLookup_some_unexpired {k : String} {row : DiskRow} {now : Int} :
    ∀ {l : List (String × DiskRow)}, diskLookup l now k = some row →
      now < row.expires_at := by
  intro l
  induction l with
  | nil => intro h; simp [diskLookup] at h
  | cons q rest ih =>
    intro h
    simp only [diskLookup] at h
    by_cases hc : q.1 = k ∧ q.2.expires_at > now
    · rw [if_pos hc] at h
      have := hc.2
      simp_all
    · rw [if_neg hc] at h
      exact ih h

theorem memGet_some {c : LRUMemoryCache} {now : Int} {key : String} {d : Payload}
    (h : (c.get now key).1 = some d) :
    ∃ e, assocFind key c.cache = some e ∧ now ≤ e.expires_at ∧ d = e.data := by
  unfold LRUMemoryCache.get at h
  cases hf : assocFind key c.cache with
  | none => simp [hf] at h
  | some e =>
    simp only [hf] at h
    by_cases hexp : now > e.expires_at
    · simp [if_pos hexp] at h
    · simp only [if_neg hexp] at h
      refine ⟨e, rfl, by omega, ?_⟩
      have : some e.data = some d := by simpa using h
      exact (Option.some.inj this).symm

theorem generate_key_user_injective (md5 : String → String) (dt : String)
    (ident : SpotifyIdentifier) {u1 u2 : String}
    (h : generate_key md5 dt ident u1 = generate_key md5 dt ident u2) :
    u1 = u2 := by
  unfold generate_key at h
  have h2 := congrArg String.data h
  simp only [String.data_append, List.append_assoc] at h2
  have h3 := List.append_cancel_left h2
  have h4 := List.append_cancel_right h3
  cases u1
  cases u2
  simp_all

/- ------------------------------------------------------------------ -/
/- C1: facade behaviour when the cache-write step fails.              -/
/- ------------------------------------------------------------------ -/

/-- C1.  The claim (and the repository's own test
test_cache_failure_graceful_degradation, and spec section 7) say that a
cacheable facade operation whose cache lookup misses and whose origin fetch
succeeds still returns the fetched payload when SpotifyCache.set raises.
The code has no try/except around the cache-write step of
CachedSpotifyClient.get_audio_features, so the storage error propagates and
the fetched payload is lost to the caller: evaluating the embedded facade at
the failing input (cache miss, successful fetch, failing write) yields the
cache failure, not the payload. -/
theorem facade_cache_write_error_propagates :
    getAudioFeaturesFacade none (some "audio_features_payload")
      (fun _ => .storageError "Cache error") = .cacheFailure "Cache error" ∧
    getAudioFeaturesFacade none (some "audio_features_payload")
      (fun _ => .storageError "Cache error") ≠ .ok "audio_features_payload" := by
  exact ⟨rfl, by decide⟩

/- ------------------------------------------------------------------ -/
/- C10: a zero ttl_hours override falls back to the per-type default. -/
/- ------------------------------------------------------------------ -/

/-- C10.  Passing ttl_hours = 0 to SpotifyCache.set or SpotifyCache.set_bulk
behaves exactly like passing no override: the `ttl_hours or
self._get_ttl_hours(data_type)` truthiness test discards the zero, the entry
is stored with the per-data-type default TTL, and (the default TTLs being
validated positive) its expires_at lies strictly in the future rather than
expiring immediately. -/
theorem zero_ttl_override_uses_default
    (s : SpotifyCache) (now : Int) (md5 : String → String) (dt : String)
    (ident : SpotifyIdentifier) (uid : String) (data : Payload)
    (dict : List (String × Payload))
    (hpos : 0 < get_ttl_hours s.config dt) :
    SpotifyCache.set s now md5 dt ident uid data (some 0) =
      SpotifyCache.set s now md5 dt ident uid data none ∧
    SpotifyCache.set_bulk s now md5 dt dict uid (some 0) =
      SpotifyCache.set_bulk s now md5 dt dict uid none ∧
    (SpotifyCache.set s now md5 dt ident uid data (some 0)).disk.getLast? =
      some (generate_key md5 dt ident uid,
        { user_id := uid, data_type := dt, data := data,
          expires_at := now + 3600 * get_ttl_hours s.config dt,
          access_count := 0, last_accessed := now }) ∧
    now < now + 3600 * get_ttl_hours s.config dt := by
  refine ⟨rfl, rfl, ?_, by linarith⟩
  simp [SpotifyCache.set, upsertRow, resolveTtlHours, List.getLast?_concat]

/-- Closed witness for C10 at a concrete cache state and data type. -/
theorem zero_ttl_override_uses_default_witness :
    0 < get_ttl_hours ({} : CacheConfig) "audio_features" ∧
    (SpotifyCache.set
        { config := {}, memory := .empty 5, disk := [] } 0 (fun s => s)
        "audio_features" (.str "track1") "userA" "payload" (some 0) =
      SpotifyCache.set
        { config := {}, memory := .empty 5, disk := [] } 0 (fun s => s)
        "audio_features" (.str "track1") "userA" "payload" none ∧
    SpotifyCache.set_bulk
        { config := {}, memory := .empty 5, disk := [] } 0 (fun s => s)
        "audio_features" [("track1", "payload")] "userA" (some 0) =
      SpotifyCache.set_bulk
        { config := {}, memory := .empty 5, disk := [] } 0 (fun s => s)
        "audio_features" [("track1", "payload")] "userA" none ∧
    (SpotifyCache.set
        { config := {}, memory := .empty 5, disk := [] } 0 (fun s => s)
        "audio_features" (.str "track1") "userA" "payload" (some 0)).disk.getLast? =
      some (generate_key (fun s => s) "audio_features" (.str "track1") "userA",
        { user_id := "userA", data_type := "audio_features", data := "payload",
          expires_at := 0 + 3600 * get_ttl_hours ({} : CacheConfig) "audio_features",
          access_count := 0, last_accessed := 0 }) ∧
    (0 : Int) < 0 + 3600 * get_ttl_hours ({} : CacheConfig) "audio_features") :=
  ⟨by decide,
   zero_ttl_override_uses_default
     { config := {}, memory := .empty 5, disk := [] } 0 (fun s => s)
     "audio_features" (.str "track1") "userA" "payload" [("track1", "payload")]
     (by decide)⟩

/- ------------------------------------------------------------------ -/
/- C3: expiry semantics of the two tiers.                             -/
/- ------------------------------------------------------------------ -/

/-- C3 counterexample.  The claim says an entry with expires_at ≤ now is
absent from both tiers, but LRUMemoryCache.get tests the strict
`datetime.now() > entry.expires_at`: at the boundary expires_at = now = 5
the memory tier still serves the payload. -/
theorem memory_tier_serves_entry_at_exact_expiry :
    ((5 : Int) ≤ 5) ∧
    (LRUMemoryCache.get
        { max_size := 10,
          cache := [("k", { data := "v", cached_at := 0, expires_at := 5,
                            access_count := 1, last_accessed := 0 })] }
        5 "k").1 = some "v" := by
  exact ⟨le_refl 5, by decide⟩

/-- C3 (amended).  Entries strictly past their expiry are logically absent
from both tiers: a memory-tier hit implies the stored entry satisfied
now ≤ expires_at (so expires_at < now is never served, while the exact
boundary expires_at = now is still served by this tier), and a
persistent-tier hit implies expires_at > now (so the boundary row is
filtered out by the SQL predicate). -/
theorem expired_entries_logically_absent
    (c : LRUMemoryCache) (now : Int) (key : String) (d : Payload)
    (disk : List (String × DiskRow)) (now2 : Int) (key2 : String) (row : DiskRow)
    (hmem : (c.get now key).1 = some d)
    (hdisk : diskLookup disk now2 key2 = some row) :
    (∃ e, assocFind key c.cache = some e ∧ now ≤ e.expires_at ∧ d = e.data) ∧
    now2 < row.expires_at :=
  ⟨memGet_some hmem, diskLookup_some_unexpired hdisk⟩

/-- Closed witness for C3 at a concrete unexpired entry in each tier. -/
theorem expired_entries_logically_absent_witness :
    ((LRUMemoryCache.get
        { max_size := 4,
          cache := [("k", { data := "v", cached_at := 0, expires_at := 9,
                            access_count := 1, last_accessed := 0 })] }
        3 "k").1 = some "v") ∧
    (diskLookup [("k2", { user_id := "u", data_type := "playlist", data := "w",
                          expires_at := 9, access_count := 0,
                          last_accessed := 0 })] 3 "k2" =
      some { user_id := "u", data_type := "playlist", data := "w",
             expires_at := 9, access_count := 0, last_accessed := 0 }) ∧
    ((∃ e, assocFind "k"
        [("k", ({ data := "v", cached_at := 0, expires_at := 9,
                  access_count := 1, last_accessed := 0 } : CacheEntry))] = some e ∧
        (3 : Int) ≤ e.expires_at ∧ "v" = e.data) ∧
      (3 : Int) < ({ user_id := "u", data_type := "playlist", data := "w",
                     expires_at := 9, access_count := 0,
                     last_accessed := 0 } : DiskRow).expires_at) :=
  ⟨by decide, by decide,
   expired_entries_logically_absent
     { max_size := 4,
       cache := [("k", { data := "v", cached_at := 0, expires_at := 9,
                         access_count := 1, last_accessed := 0 })] }
     3 "k" "v"
     [("k2", { user_id := "u", data_type := "playlist", data := "w",
               expires_at := 9, access_count := 0, last_accessed := 0 })]
     3 "k2"
     { user_id := "u", data_type := "playlist", data := "w",
       expires_at := 9, access_count := 0, last_accessed := 0 }
     (by decide) (by decide)⟩

/- ------------------------------------------------------------------ -/
/- C8: bulk cache keys are order-independent.                         -/
/- ------------------------------------------------------------------ -/

/-- C8.  For a list identifier the cache key depends only on the multiset of
ids: any permutation of the list yields the same key, because
_generate_key sorts the ids before joining and hashing them.  The statement
holds for every hash function md5, so in particular for hashlib's. -/
theorem bulk_key_order_independent
    (md5 : String → String) (dt uid : String) (l1 l2 : List String)
    (hperm : l1.Perm l2) :
    generate_key md5 dt (.list l1) uid = generate_key md5 dt (.list l2) uid := by
  have hsort : sortedStrings l1 = sortedStrings l2 := by
    unfold sortedStrings
    exact List.eq_of_perm_of_sorted
      ((List.perm_insertionSort _ l1).trans
        (hperm.trans (List.perm_insertionSort _ l2).symm))
      (List.sorted_insertionSort _ l1) (List.sorted_insertionSort _ l2)
  simp only [generate_key, identifierString]
  rw [hsort]

/-- Closed witness for C8 on a concrete permutation. -/
theorem bulk_key_order_independent_witness :
    (["b", "a", "c"] : List String).Perm ["a", "c", "b"] ∧
    generate_key (fun s => s) "audio_features" (.list ["b", "a", "c"]) "u" =
      generate_key (fun s => s) "audio_features" (.list ["a", "c", "b"]) "u" :=
  ⟨by decide,
   bulk_key_order_independent (fun s => s) "audio_features" "u"
     ["b", "a", "c"] ["a", "c", "b"] (by decide)⟩

/- ------------------------------------------------------------------ -/
/- C4: key uniqueness and user isolation.                             -/
/- ------------------------------------------------------------------ -/

/-- C4 counterexample.  _generate_key is not injective on arbitrary
(user_id, data_type, identifier) triples: the plain-string interpolation
lets the colon separator leak between fields, so the distinct triples
(user "a", type "b:c", id "d") and (user "a:b", type "c", id "d") produce
the same key "spotify:user:a:b:c:d". -/
theorem generate_key_collides_across_distinct_triples :
    generate_key (fun s => s) "b:c" (.str "d") "a" =
      generate_key (fun s => s) "c" (.str "d") "a:b" ∧
    ("a" : String) ≠ "a:b" := by
  exact ⟨by decide, by decide⟩

/-- C4 (amended).  For a fixed (data_type, identifier) pair — the case the
spec's isolation property is about — two different owners always receive
different cache keys, and consequently a payload written by one owner under
that pair is never returned to the other owner's lookup of the same pair
(in either tier), provided the other owner did not already hold an equal
payload under their own key.  Full injectivity over arbitrary triples fails
(see the counterexample) because field contents may embed the ":" separator. -/
theorem user_isolation_for_shared_identifier
    (md5 : String → String) (dt : String) (ident : SpotifyIdentifier)
    (u1 u2 : String) (hne : u1 ≠ u2)
    (s : SpotifyCache) (now now2 : Int) (secret : Payload) (ttl : Option Int)
    (hmem : ∀ p ∈ s.memory.cache,
      p.1 = generate_key md5 dt ident u2 → p.2.data ≠ secret)
    (hdisk : ∀ p ∈ s.disk,
      p.1 = generate_key md5 dt ident u2 → p.2.data ≠ secret) :
    generate_key md5 dt ident u1 ≠ generate_key md5 dt ident u2 ∧
    ((SpotifyCache.set s now md5 dt ident u1 secret ttl).get
        now2 md5 dt ident u2).1 ≠ some secret := by
  have hkey : generate_key md5 dt ident u1 ≠ generate_key md5 dt ident u2 :=
    fun h => hne (generate_key_user_injective md5 dt ident h)
  refine ⟨hkey, ?_⟩
  intro hcontra
  simp only [SpotifyCache.get, SpotifyCache.set] at hcontra
  cases hm : ((s.memory.set now (generate_key md5 dt ident u1) secret
      (now + 3600 * resolveTtlHours ttl (get_ttl_hours s.config dt))).get
      now2 (generate_key md5 dt ident u2)).1 with
  | some d =>
    rw [hm] at hcontra
    simp only at hcontra
    have hd : d = secret := Option.some.inj hcontra
    obtain ⟨e, hfind, _, hde⟩ := memGet_some hm
    have hmem2 := assocFind_some_mem hfind
    simp only [LRUMemoryCache.set, evictOldest_eq_drop] at hmem2
    have hmem3 := List.mem_of_mem_drop hmem2
    rcases List.mem_append.mp hmem3 with hleft | hright
    · have hin := assocErase_subset hleft
      exact hmem _ hin rfl (by rw [← hde, ← hd])
    · have : generate_key md5 dt ident u2 = generate_key md5 dt ident u1 := by
        have := List.mem_singleton.mp hright
        exact congrArg Prod.fst this
      exact hkey this.symm
  | none =>
    rw [hm] at hcontra
    simp only at hcontra
    cases hdl : diskLookup
        (upsertRow (generate_key md5 dt ident u1)
          { user_id := u1, data_type := dt, data := secret,
            expires_at :=
              now + 3600 * resolveTtlHours ttl (get_ttl_hours s.config dt),
            access_count := 0, last_accessed := now } s.disk)
        now2 (generate_key md5 dt ident u2) with
    | some row =>
      rw [hdl] at hcontra
      simp only at hcontra
      have hrow : row.data = secret := Option.some.inj hcontra
      have hmemrow := diskLookup_some_mem hdl
      unfold upsertRow at hmemrow
      rcases List.mem_append.mp hmemrow with hleft | hright
      · have hin := assocErase_subset hleft
        exact hdisk _ hin rfl hrow
      · have : generate_key md5 dt ident u2 = generate_key md5 dt ident u1 := by
          have := List.mem_singleton.mp hright
          exact congrArg Prod.fst this
        exact hkey this.symm
    | none =>
      rw [hdl] at hcontra
      simp at hcontra

/-- Closed witness for C4 at two concrete owners and an empty start state. -/
theorem user_isolation_for_shared_identifier_witness :
    (("userA" : String) ≠ "userB") ∧
    (generate_key (fun s => s) "audio_features" (.str "t") "userA" ≠
        generate_key (fun s => s) "audio_features" (.str "t") "userB" ∧
      ((SpotifyCache.set { config := {}, memory := .empty 3, disk := [] } 0
          (fun s => s) "audio_features" (.str "t") "userA" "secret" none).get
          0 (fun s => s) "audio_features" (.str "t") "userB").1 ≠ some "secret") :=
  ⟨by decide,
   user_isolation_for_shared_identifier (fun s => s) "audio_features"
     (.str "t") "userA" "userB" (by decide)
     { config := {}, memory := .empty 3, disk := [] } 0 0 "secret" none
     (by intro p hp; simp [LRUMemoryCache.empty] at hp)
     (by intro p hp; simp at hp)⟩

/- ------------------------------------------------------------------ -/
/- C2 / C7: the retry loop of _make_request.                          -/
/- ------------------------------------------------------------------ -/

theorem make_request_all500 (config : APIConfig) (responses : Nat → HttpResponse)
    (h500 : ∀ i, (responses i).status = 500) :
    ∀ b rc, config.retry_attempts - rc = b →
      (make_request config responses rc).requests = b + 1 ∧
      (make_request config responses rc).delays =
        (List.range b).map (fun j => get_retry_delay config (rc + j)) ∧
      (make_request config responses rc).result = .error (.apiError 500) := by
  intro b
  induction b with
  | zero =>
    intro rc hrc
    have hge : ¬ rc < config.retry_attempts := by omega
    rw [make_request]
    simp only [h500 rc]
    norm_num
    rw [if_neg hge]
    exact ⟨rfl, rfl, rfl⟩
  | succ b ih =>
    intro rc hrc
    have hlt : rc < config.retry_attempts := by omega
    obtain ⟨ih1, ih2, ih3⟩ := ih (rc + 1) (by omega)
    rw [make_request]
    simp only [h500 rc]
    norm_num
    rw [if_pos hlt]
    refine ⟨by simp [ih1], ?_, by simpa using ih3⟩
    simp only [ih2]
    rw [List.range_succ_eq_map]
    simp only [List.map_cons, List.map_map]
    congr 1
    apply List.map_congr_left
    intro j _
    simp only [Function.comp_apply]
    exact congrArg (get_retry_delay config) (by omega)

/-- C2 counterexample.  With config.retry_attempts = K = 1 and a server that
always answers 500, the client issues 2 requests (the initial attempt plus
one retry), not K = 1 as the claim states: retry_attempts counts retries
after the first attempt, so the total is K + 1. -/
theorem server_error_request_count_exceeds_budget :
    (make_request { retry_attempts := 1, retry_delays := [3], timeout := 30 }
        (fun _ => { status := 500, retryAfter := none, body := "err" }) 0).requests = 2 ∧
    ¬ (make_request { retry_attempts := 1, retry_delays := [3], timeout := 30 }
        (fun _ => { status := 500, retryAfter := none, body := "err" }) 0).requests =
      ({ retry_attempts := 1, retry_delays := [3], timeout := 30 } : APIConfig).retry_attempts := by
  have h := make_request_all500
    { retry_attempts := 1, retry_delays := [3], timeout := 30 }
    (fun _ => { status := 500, retryAfter := none, body := "err" })
    (fun _ => rfl) 1 0 rfl
  refine ⟨h.1, ?_⟩
  rw [h.1]
  decide

/-- C2 (amended).  With config.retry_attempts = K and every response an HTTP
500, SpotifyClient._make_request issues exactly K + 1 requests (the initial
attempt plus K retries) and then raises SpotifyAPIError carrying status 500;
the delay slept before request i+1 is _get_retry_delay(i-1), i.e. the i-th
entry of the configured backoff schedule, reusing the last entry once the
list is exhausted. -/
theorem server_error_retry_budget_and_backoff
    (config : APIConfig) (responses : Nat → HttpResponse)
    (h500 : ∀ i, (responses i).status = 500)
    (hne : config.retry_delays ≠ []) :
    (make_request config responses 0).requests = config.retry_attempts + 1 ∧
    (make_request config responses 0).result = .error (.apiError 500) ∧
    (make_request config responses 0).delays =
      (List.range config.retry_attempts).map (get_retry_delay config) ∧
    (∀ i, ∀ hi : i < config.retry_delays.length,
      get_retry_delay config i = config.retry_delays.get ⟨i, hi⟩) ∧
    (∀ i, config.retry_delays.length ≤ i →
      get_retry_delay config i = config.retry_delays.getLast hne) := by
  obtain ⟨h1, h2, h3⟩ :=
    make_request_all500 config responses h500 config.retry_attempts 0 (by omega)
  refine ⟨h1, h3, ?_, ?_, ?_⟩
  · rw [h2]
    apply List.map_congr_left
    intro j _
    exact congrArg (get_retry_delay config) (by omega)
  · intro i hi
    unfold get_retry_delay
    rw [dif_pos hi]
  · intro i hile
    unfold get_retry_delay
    rw [dif_neg (by omega)]
    rw [List.getLastD_eq_getLast?, List.getLast?_eq_getLast _ hne]
    rfl

/-- Closed witness for C2 (amended) with three attempts and a two-entry
backoff schedule exercising the clamp. -/
theorem server_error_retry_budget_and_backoff_witness :
    (∀ i : Nat,
      ((fun _ => { status := 500, retryAfter := none,
                   body := "err" } : Nat → HttpResponse) i).status = 500) ∧
    (({ retry_attempts := 3, retry_delays := [3, 15], timeout := 30 }
        : APIConfig).retry_delays ≠ []) ∧
    ((make_request { retry_attempts := 3, retry_delays := [3, 15], timeout := 30 }
        (fun _ => { status := 500, retryAfter := none, body := "err" }) 0).requests = 4 ∧
     (make_request { retry_attempts := 3, retry_delays := [3, 15], timeout := 30 }
        (fun _ => { status := 500, retryAfter := none, body := "err" }) 0).result =
        .error (.apiError 500) ∧
     (make_request { retry_attempts := 3, retry_delays := [3, 15], timeout := 30 }
        (fun _ => { status := 500, retryAfter := none, body := "err" }) 0).delays =
        (List.range 3).map
          (get_retry_delay { retry_attempts := 3, retry_delays := [3, 15], timeout := 30 })) := by
  have h := server_error_retry_budget_and_backoff
    { retry_attempts := 3, retry_delays := [3, 15], timeout := 30 }
    (fun _ => { status := 500, retryAfter := none, body := "err" })
    (fun _ => rfl) (by decide)
  exact ⟨fun _ => rfl, by decide, h.1, h.2.1, h.2.2.1⟩

/-- C7.  HTTP 429 handling of _handle_response: with attempts remaining the
client sleeps exactly the Retry-After duration from the response headers
(not a backoff-schedule delay) and re-issues the request; with attempts
exhausted it raises RateLimitError carrying that retry-after value.  In
particular, one 429 with Retry-After: 5 followed by a 200 yields two
requests, a single sleep of 5 time-units, and the 200 payload. -/
theorem rate_limit_429_honored
    (config config2 : APIConfig) (responses responses2 : Nat → HttpResponse)
    (rc : Nat) (ra : Int) (p b : Payload)
    (h429 : (responses rc).status = 429)
    (hra : (responses rc).retryAfter = some ra)
    (h0 : responses2 0 = { status := 429, retryAfter := some 5, body := b })
    (h1 : responses2 1 = { status := 200, retryAfter := none, body := p })
    (hK : 1 ≤ config2.retry_attempts) :
    (make_request config responses rc =
      if rc < config.retry_attempts then
        { requests := (make_request config responses (rc + 1)).requests + 1,
          delays := ra :: (make_request config responses (rc + 1)).delays,
          result := (make_request config responses (rc + 1)).result }
      else
        { requests := 1, delays := [], result := .error (.rateLimit ra) }) ∧
    make_request config2 responses2 0 =
      { requests := 2, delays := [5], result := .ok p } := by
  constructor
  · rw [make_request]
    simp only [h429, hra]
    norm_num
  · have e1 : make_request config2 responses2 1 =
        { requests := 1, delays := [], result := .ok p } := by
      rw [make_request]
      simp only [h1]
      norm_num
    rw [make_request]
    simp only [h0, e1]
    norm_num
    omega

/-- Closed witness for C7: one 429 carrying Retry-After 5 then a 200. -/
theorem rate_limit_429_honored_witness :
    ((fun i => if i = 0
        then ({ status := 429, retryAfter := some 5, body := "b" } : HttpResponse)
        else { status := 200, retryAfter := none, body := "p" }) 0).status = 429 ∧
    1 ≤ ({ retry_attempts := 3, retry_delays := [3, 15, 45], timeout := 30 }
        : APIConfig).retry_attempts ∧
    make_request { retry_attempts := 3, retry_delays := [3, 15, 45], timeout := 30 }
      (fun i => if i = 0
        then ({ status := 429, retryAfter := some 5, body := "b" } : HttpResponse)
        else { status := 200, retryAfter := none, body := "p" }) 0 =
      { requests := 2, delays := [5], result := .ok "p" } := by
  have h := rate_limit_429_honored
    { retry_attempts := 3, retry_delays := [3, 15, 45], timeout := 30 }
    { retry_attempts := 3, retry_delays := [3, 15, 45], timeout := 30 }
    (fun i => if i = 0
      then ({ status := 429, retryAfter := some 5, body := "b" } : HttpResponse)
      else { status := 200, retryAfter := none, body := "p" })
    (fun i => if i = 0
      then ({ status := 429, retryAfter := some 5, body := "b" } : HttpResponse)
      else { status := 200, retryAfter := none, body := "p" })
    0 5 "p" "b" rfl rfl rfl rfl (by decide)
  exact ⟨rfl, by decide, h.2⟩

/- ------------------------------------------------------------------ -/
/- C5: LRU eviction discipline.                                       -/
/- ------------------------------------------------------------------ -/

theorem tail_append_of_ne_nil {α : Type} {l m : List α} (h : l ≠ []) :
    (l ++ m).tail = l.tail ++ m := by
  cases l with
  | nil => exact absurd rfl h
  | cons a t => rfl

theorem lru_set_fresh_cache (c : LRUMemoryCache) (now : Int) (key : String)
    (data : Payload) (e : Int) (hfresh : key ∉ keysOf c)
    (hlt : c.cache.length < c.max_size) :
    (c.set now key data e).cache = c.cache ++ [(key, mkCacheEntry now data e)] := by
  unfold keysOf at hfresh
  unfold LRUMemoryCache.set
  simp only
  rw [assocErase_of_not_mem hfresh]
  rw [evictOldest_of_le (by simp; omega)]

theorem lruInsertAll_spec (now e : Int) :
    ∀ (items : List (String × Payload)) (c : LRUMemoryCache),
      (keysOf c ++ items.map Prod.fst).Nodup →
      c.cache.length + items.length ≤ c.max_size →
      (lruInsertAll c now e items).cache =
        c.cache ++ items.map (fun p => (p.1, mkCacheEntry now p.2 e)) ∧
      (lruInsertAll c now e items).max_size = c.max_size := by
  intro items
  induction items with
  | nil => intro c _ _; exact ⟨by simp [lruInsertAll], rfl⟩
  | cons p rest ih =>
    intro c hnodup hlen
    have hfresh : p.1 ∉ keysOf c := by
      rw [List.nodup_append] at hnodup
      intro hmem
      exact hnodup.2.2 hmem (by simp)
    have hlt : c.cache.length < c.max_size := by
      simp only [List.length_cons] at hlen
      omega
    have hset := lru_set_fresh_cache c now p.1 p.2 e hfresh hlt
    have hsetkeys : keysOf (c.set now p.1 p.2 e) = keysOf c ++ [p.1] := by
      unfold keysOf
      rw [hset]
      simp
    have hnodup2 :
        (keysOf (c.set now p.1 p.2 e) ++ rest.map Prod.fst).Nodup := by
      rw [hsetkeys, List.append_assoc]
      simpa using hnodup
    have hlen2 :
        (c.set now p.1 p.2 e).cache.length + rest.length ≤
          (c.set now p.1 p.2 e).max_size := by
      show _ ≤ c.max_size
      rw [hset]
      simp only [List.length_append, List.length_singleton]
      simp only [List.length_cons] at hlen
      omega
    obtain ⟨ihc, ihm⟩ := ih (c.set now p.1 p.2 e) hnodup2 hlen2
    have hstep :
        lruInsertAll c now e (p :: rest) =
          lruInsertAll (c.set now p.1 p.2 e) now e rest := rfl
    constructor
    · rw [hstep, ihc, hset, List.append_assoc]
      simp
    · rw [hstep, ihm]
      rfl

theorem lru_empty_cache (n : Nat) : (LRUMemoryCache.empty n).cache = [] := rfl

theorem lru_empty_max_size (n : Nat) : (LRUMemoryCache.empty n).max_size = n := rfl

theorem lru_set_full_cache (c : LRUMemoryCache) (now : Int) (key : String)
    (data : Payload) (e : Int) (hfresh : key ∉ keysOf c)
    (hful : c.cache.length = c.max_size) (hpos : 1 ≤ c.max_size) :
    (c.set now key data e).cache =
      c.cache.tail ++ [(key, mkCacheEntry now data e)] := by
  unfold keysOf at hfresh
  unfold LRUMemoryCache.set
  simp only
  rw [assocErase_of_not_mem hfresh]
  rw [evictOldest_of_len_succ (by simp [hful])]
  refine tail_append_of_ne_nil ?_
  intro hnil
  rw [hnil] at hful
  simp at hful
  omega

theorem lru_get_hit_state (now : Int) {c : LRUMemoryCache} {key : String}
    {e : CacheEntry}
    (hfind : assocFind key c.cache = some e) (hunexp : ¬ now > e.expires_at) :
    ((c.get now key).2).cache =
      assocErase key c.cache ++
        [(key, { e with access_count := e.access_count + 1,
                        last_accessed := now })] ∧
    ((c.get now key).2).max_size = c.max_size := by
  unfold LRUMemoryCache.get
  rw [hfind]
  dsimp only
  rw [if_neg hunexp]
  exact ⟨rfl, rfl⟩

/-- C5 counterexample.  At capacity N = 1 the protection clause of the claim
fails: after inserting "a", accessing it via get, and inserting the fresh
key "b", the accessed key "a" is itself the least-recently-used key and is
evicted, leaving only "b". -/
theorem lru_capacity_one_access_does_not_protect :
    keysOf (((((LRUMemoryCache.empty 1).set 0 "a" "x" 10).get 0 "a").2).set
        0 "b" "y" 10) = ["b"] ∧
    "a" ∉ keysOf (((((LRUMemoryCache.empty 1).set 0 "a" "x" 10).get 0 "a").2).set
        0 "b" "y" 10) := by
  exact ⟨by decide, by decide⟩

/-- C5 (amended).  Part one (any capacity N ≥ 1): inserting N distinct keys
into an empty LRUMemoryCache of capacity N and then a fresh (N+1)-th key
evicts exactly the least-recently-used key (the first inserted): the
resulting recency order is the old order minus its head plus the new key at
the most-recently-used end, and the size returns to N.  Part two (capacity
N ≥ 2): if some stored, unexpired key j is accessed via get immediately
before the eviction-triggering insert, j is moved to the most-recently-used
end and is not the key evicted — the eviction falls on the head of the
remaining order.  (At N = 1 the accessed key is itself the LRU key and is
evicted, so the protection clause needs N ≥ 2; see the counterexample.) -/
theorem lru_eviction_amended
    (N : Nat) (ps : List (String × Payload)) (k : String) (d : Payload)
    (e now : Int)
    (hlen : ps.length = N) (hnodup : (ps.map Prod.fst).Nodup)
    (hk : k ∉ ps.map Prod.fst) (hN : 1 ≤ N)
    (N2 : Nat) (ps2 : List (String × Payload)) (k2 j : String) (d2 : Payload)
    (e2 now2 : Int)
    (hlen2 : ps2.length = N2) (hnodup2 : (ps2.map Prod.fst).Nodup)
    (hk2 : k2 ∉ ps2.map Prod.fst) (hj : j ∈ ps2.map Prod.fst)
    (hN2 : 2 ≤ N2) (hunexp2 : now2 ≤ e2) :
    (keysOf ((lruInsertAll (.empty N) now e ps).set now k d e) =
        (ps.map Prod.fst).tail ++ [k] ∧
      ((lruInsertAll (.empty N) now e ps).set now k d e).cache.length = N) ∧
    (keysOf ((((lruInsertAll (.empty N2) now2 e2 ps2).get now2 j).2).set
          now2 k2 d2 e2) =
        ((ps2.map Prod.fst).erase j).tail ++ [j, k2] ∧
      j ∈ keysOf ((((lruInsertAll (.empty N2) now2 e2 ps2).get now2 j).2).set
          now2 k2 d2 e2)) := by
  constructor
  · -- Part one: plain insertion of N keys then a fresh key.
    obtain ⟨hcA, hmA⟩ := lruInsertAll_spec now e ps (.empty N)
      (by simpa [keysOf, LRUMemoryCache.empty] using hnodup)
      (by simp [LRUMemoryCache.empty, hlen])
    rw [lru_empty_cache, List.nil_append] at hcA
    rw [lru_empty_max_size] at hmA
    have hkeysA : keysOf (lruInsertAll (.empty N) now e ps) = ps.map Prod.fst := by
      unfold keysOf
      rw [hcA]
      simp
    have hlenA : (lruInsertAll (.empty N) now e ps).cache.length = N := by
      rw [hcA]
      simp [hlen]
    have hfinal := lru_set_full_cache (lruInsertAll (.empty N) now e ps)
      now k d e
      (by rw [hkeysA]; exact hk) (by rw [hlenA, hmA]) (by rw [hmA]; exact hN)
    constructor
    · unfold keysOf
      rw [hfinal, List.map_append, hcA, List.map_tail]
      simp only [List.map_map]
      have hmapeq :
          List.map (Prod.fst ∘ fun p => (p.1, mkCacheEntry now p.2 e)) ps =
            List.map Prod.fst ps := by
        apply List.map_congr_left
        intro p _
        rfl
      rw [hmapeq]
      rfl
    · rw [hfinal]
      have hne : (lruInsertAll (.empty N) now e ps).cache ≠ [] := by
        intro hnil
        rw [hnil] at hlenA
        simp at hlenA
        omega
      simp only [List.length_append, List.length_tail, List.length_singleton]
      rw [hlenA]
      omega
  · -- Part two: a get on key j interposed before the eviction-triggering set.
    obtain ⟨hcB, hmB⟩ := lruInsertAll_spec now2 e2 ps2 (.empty N2)
      (by simpa [keysOf, LRUMemoryCache.empty] using hnodup2)
      (by simp [LRUMemoryCache.empty, hlen2])
    rw [lru_empty_cache, List.nil_append] at hcB
    rw [lru_empty_max_size] at hmB
    have hkeysB :
        (lruInsertAll (.empty N2) now2 e2 ps2).cache.map Prod.fst =
          ps2.map Prod.fst := by
      rw [hcB]
      simp [List.map_map]
    obtain ⟨pj, hpj, hpj1⟩ := List.mem_map.mp hj
    have hmemB : (j, mkCacheEntry now2 pj.2 e2) ∈
        (lruInsertAll (.empty N2) now2 e2 ps2).cache := by
      rw [hcB]
      exact List.mem_map.mpr ⟨pj, hpj, by rw [hpj1]⟩
    have hfindB := assocFind_eq_some_of_mem_nodup hmemB (by rw [hkeysB]; exact hnodup2)
    obtain ⟨hgc, hgm⟩ := lru_get_hit_state now2 hfindB
      (by simp [mkCacheEntry]; omega)
    have hkeysGet :
        ((( lruInsertAll (.empty N2) now2 e2 ps2).get now2 j).2).cache.map Prod.fst =
          (ps2.map Prod.fst).erase j ++ [j] := by
      rw [hgc, List.map_append]
      rw [map_fst_assocErase_nodup (by rw [hkeysB]; exact hnodup2)]
      rw [hkeysB]
      rfl
    have hlenErase : ((ps2.map Prod.fst).erase j).length = N2 - 1 := by
      rw [List.length_erase_of_mem hj]
      simp [hlen2]
    have hlenGet :
        ((( lruInsertAll (.empty N2) now2 e2 ps2).get now2 j).2).cache.length = N2 := by
      have := congrArg List.length hkeysGet
      simp only [List.length_map, List.length_append, List.length_singleton] at this
      rw [this, hlenErase]
      omega
    have hfreshGet :
        k2 ∉ keysOf ((( lruInsertAll (.empty N2) now2 e2 ps2).get now2 j).2) := by
      unfold keysOf
      rw [hkeysGet]
      intro hmem
      rcases List.mem_append.mp hmem with hin | hin
      · exact hk2 (List.mem_of_mem_erase hin)
      · have : k2 = j := List.mem_singleton.mp hin
        exact hk2 (this ▸ hj)
    have hfinal2 := lru_set_full_cache
      (((lruInsertAll (.empty N2) now2 e2 ps2).get now2 j).2) now2 k2 d2 e2
      hfreshGet (by rw [hlenGet, hgm, hmB]) (by rw [hgm, hmB]; omega)
    have hEne : assocErase j (lruInsertAll (.empty N2) now2 e2 ps2).cache ≠ [] := by
      intro hnil
      have := congrArg List.length
        (map_fst_assocErase_nodup (k := j) (by rw [hkeysB]; exact hnodup2))
      rw [hnil, hkeysB, hlenErase] at this
      simp at this
      omega
    have hkeysFinal :
        keysOf ((((lruInsertAll (.empty N2) now2 e2 ps2).get now2 j).2).set
            now2 k2 d2 e2) =
          ((ps2.map Prod.fst).erase j).tail ++ [j, k2] := by
      unfold keysOf
      rw [hfinal2, hgc, tail_append_of_ne_nil hEne]
      simp only [List.map_append, List.append_assoc]
      rw [List.map_tail]
      rw [map_fst_assocErase_nodup (by rw [hkeysB]; exact hnodup2)]
      rw [hkeysB]
      rfl
    refine ⟨hkeysFinal, ?_⟩
    rw [hkeysFinal]
    simp

/-- Closed witness for C5 (amended) at capacity 2: inserting "a","b" then
"c" evicts "a"; accessing "b" first protects it, so "a" is evicted and "b"
survives at the most-recently-used side. -/
theorem lru_eviction_amended_witness :
    ((["a", "b"] : List String).Nodup ∧ "c" ∉ (["a", "b"] : List String) ∧
      "b" ∈ (["a", "b"] : List String) ∧ (0 : Int) ≤ 10) ∧
    ((keysOf ((lruInsertAll (.empty 2) 0 10 [("a", "x"), ("b", "y")]).set
          0 "c" "z" 10) = ["b", "c"] ∧
      ((lruInsertAll (.empty 2) 0 10 [("a", "x"), ("b", "y")]).set
          0 "c" "z" 10).cache.length = 2) ∧
     (keysOf ((((lruInsertAll (.empty 2) 0 10 [("a", "x"), ("b", "y")]).get
            0 "b").2).set 0 "c" "z" 10) = ["b", "c"] ∧
      "b" ∈ keysOf ((((lruInsertAll (.empty 2) 0 10 [("a", "x"), ("b", "y")]).get
            0 "b").2).set 0 "c" "z" 10))) := by
  have h := lru_eviction_amended 2 [("a", "x"), ("b", "y")] "c" "z" 10 0
    (by decide) (by decide) (by decide) (by decide)
    2 [("a", "x"), ("b", "y")] "c" "b" "z" 10 0
    (by decide) (by decide) (by decide) (by decide) (by decide) (by decide)
  refine ⟨⟨by decide, by decide, by decide, by decide⟩, ?_⟩
  have e1 : ((["a", "b"] : List String).tail ++ ["c"]) = ["b", "c"] := by decide
  have e2 : (((["a", "b"] : List String).erase "b").tail ++ ["b", "c"]) =
      ["b", "c"] := by decide
  constructor
  · constructor
    · have := h.1.1
      simpa [e1] using this
    · exact h.1.2
  · constructor
    · have := h.2.1
      simpa [e2] using this
    · exact h.2.2

/- ------------------------------------------------------------------ -/
/- C6: tiered lookup of the hybrid cache.                             -/
/- ------------------------------------------------------------------ -/

theorem lru_get_max_size (c : LRUMemoryCache) (now : Int) (key : String) :
    ((c.get now key).2).max_size = c.max_size := by
  unfold LRUMemoryCache.get
  cases hf : assocFind key c.cache with
  | none => rfl
  | some e =>
    dsimp only
    by_cases hexp : now > e.expires_at
    · rw [if_pos hexp]
    · rw [if_neg hexp]

theorem lru_set_find_self {c : LRUMemoryCache} {now : Int} {key : String}
    {d : Payload} {e : Int} (hcap : 1 ≤ c.max_size) :
    assocFind key ((c.set now key d e).cache) = some (mkCacheEntry now d e) := by
  unfold LRUMemoryCache.set
  dsimp only
  rw [evictOldest_eq_drop]
  have hle :
      (assocErase key c.cache ++ [(key, mkCacheEntry now d e)]).length - c.max_size ≤
        (assocErase key c.cache).length := by
    simp only [List.length_append, List.length_singleton]
    omega
  rw [List.drop_append_of_le_length hle]
  rw [assocFind_append_of_not_mem_left ?_]
  · simp [assocFind]
  · intro hmem
    rcases List.mem_map.mp hmem with ⟨p, hp, hp1⟩
    have hpL := List.mem_of_mem_drop hp
    exact not_mem_map_fst_assocErase (hp1 ▸ List.mem_map.mpr ⟨p, hpL, rfl⟩)

/-- C6.  Tiered lookup of the hybrid SpotifyCache.get: (1) if the memory
tier holds an entry for the key that its expiry rule serves (now ≤
expires_at), its payload is returned and the disk is not modified; (2) if
the memory tier misses and the persistent tier holds a row passing the SQL
filter expires_at > now, that row's payload is returned and the memory tier
is populated with the row's payload under the row's own expires_at; (3) if
both tiers miss, the lookup returns absent. -/
theorem hybrid_get_tiered
    (s : SpotifyCache) (now : Int) (md5 : String → String) (dt : String)
    (ident : SpotifyIdentifier) (uid : String)
    (hcap : 1 ≤ s.memory.max_size) :
    (∀ e, assocFind (generate_key md5 dt ident uid) s.memory.cache = some e →
      now ≤ e.expires_at →
      (s.get now md5 dt ident uid).1 = some e.data ∧
      (s.get now md5 dt ident uid).2.disk = s.disk) ∧
    (∀ row, (s.memory.get now (generate_key md5 dt ident uid)).1 = none →
      diskLookup s.disk now (generate_key md5 dt ident uid) = some row →
      (s.get now md5 dt ident uid).1 = some row.data ∧
      assocFind (generate_key md5 dt ident uid)
          (s.get now md5 dt ident uid).2.memory.cache =
        some (mkCacheEntry now row.data row.expires_at)) ∧
    ((s.memory.get now (generate_key md5 dt ident uid)).1 = none →
      diskLookup s.disk now (generate_key md5 dt ident uid) = none →
      (s.get now md5 dt ident uid).1 = none) := by
  refine ⟨?_, ?_, ?_⟩
  · intro e hfind hexp
    have hm : (s.memory.get now (generate_key md5 dt ident uid)).1 = some e.data := by
      unfold LRUMemoryCache.get
      rw [hfind]
      dsimp only
      rw [if_neg (by omega)]
    unfold SpotifyCache.get
    dsimp only
    rw [hm]
    exact ⟨rfl, rfl⟩
  · intro row hmiss hdisk
    unfold SpotifyCache.get
    dsimp only
    rw [hmiss, hdisk]
    dsimp only
    refine ⟨rfl, ?_⟩
    exact lru_set_find_self (by rw [lru_get_max_size]; exact hcap)
  · intro hmiss hnone
    unfold SpotifyCache.get
    dsimp only
    rw [hmiss, hnone]

/-- Closed witness for C6 exercising all three branches: a memory hit, a
disk hit repopulating memory, and a miss in both tiers. -/
theorem hybrid_get_tiered_witness :
    ((SpotifyCache.get
        { config := {},
          memory :=
            { max_size := 4,
              cache := [("spotify:user:u:audio_features:t",
                { data := "v", cached_at := 0, expires_at := 10,
                  access_count := 1, last_accessed := 0 })] },
          disk := [] } 0 (fun x => x) "audio_features" (.str "t") "u").1 =
        some "v" ∧
      (SpotifyCache.get
        { config := {},
          memory :=
            { max_size := 4,
              cache := [("spotify:user:u:audio_features:t",
                { data := "v", cached_at := 0, expires_at := 10,
                  access_count := 1, last_accessed := 0 })] },
          disk := [] } 0 (fun x => x) "audio_features" (.str "t") "u").2.disk =
        []) ∧
    ((SpotifyCache.get
        { config := {}, memory := .empty 4,
          disk := [("spotify:user:u:audio_features:t",
            { user_id := "u", data_type := "audio_features", data := "w",
              expires_at := 10, access_count := 0, last_accessed := 0 })] }
        0 (fun x => x) "audio_features" (.str "t") "u").1 = some "w" ∧
      assocFind (generate_key (fun x => x) "audio_features" (.str "t") "u")
        (SpotifyCache.get
          { config := {}, memory := .empty 4,
            disk := [("spotify:user:u:audio_features:t",
              { user_id := "u", data_type := "audio_features", data := "w",
                expires_at := 10, access_count := 0, last_accessed := 0 })] }
          0 (fun x => x) "audio_features" (.str "t") "u").2.memory.cache =
        some (mkCacheEntry 0 "w" 10)) ∧
    (SpotifyCache.get
        { config := {}, memory := .empty 4, disk := [] }
        0 (fun x => x) "audio_features" (.str "t") "u").1 = none := by
  have h1 := (hybrid_get_tiered
    { config := {},
      memory :=
        { max_size := 4,
          cache := [("spotify:user:u:audio_features:t",
            { data := "v", cached_at := 0, expires_at := 10,
              access_count := 1, last_accessed := 0 })] },
      disk := [] } 0 (fun x => x) "audio_features" (.str "t") "u"
    (by decide)).1
    { data := "v", cached_at := 0, expires_at := 10,
      access_count := 1, last_accessed := 0 }
    (by decide) (by decide)
  have h2 := (hybrid_get_tiered
    { config := {}, memory := .empty 4,
      disk := [("spotify:user:u:audio_features:t",
        { user_id := "u", data_type := "audio_features", data := "w",
          expires_at := 10, access_count := 0, last_accessed := 0 })] }
    0 (fun x => x) "audio_features" (.str "t") "u" (by decide)).2.1
    { user_id := "u", data_type := "audio_features", data := "w",
      expires_at := 10, access_count := 0, last_accessed := 0 }
    (by decide) (by decide)
  have h3 := (hybrid_get_tiered
    { config := {}, memory := .empty 4, disk := [] }
    0 (fun x => x) "audio_features" (.str "t") "u" (by decide)).2.2
    (by decide) (by decide)
  exact ⟨⟨h1.1, h1.2⟩, ⟨h2.1, h2.2⟩, h3⟩

/- ------------------------------------------------------------------ -/
/- C9: single refresh under contention.                               -/
/- ------------------------------------------------------------------ -/

theorem tokenManagerInv_init (n : Nat) : tokenManagerInv (tokenManagerInit n) := by
  refine ⟨?_, ?_, ?_, ?_, ?_⟩
  · intro i h
    rcases h with h | h <;> simp [tokenManagerInit] at h
  · simp [tokenManagerInit]
  · simp [tokenManagerInit]
  · intro i h
    simp [tokenManagerInit] at h
  · intro _ i
    simp [tokenManagerInit]

theorem tokenManagerInv_step {n : Nat} {s s2 : TokenManagerState n}
    (hinv : tokenManagerInv s) (hstep : TokenManagerStep n s s2) :
    tokenManagerInv s2 := by
  obtain ⟨hlock, hiff, hle, hrefexp, hnodone⟩ := hinv
  cases hstep with
  | observeExpired i hpc hexp =>
    refine ⟨?_, hiff, hle, ?_, ?_⟩
    · intro j hj
      dsimp only at hj ⊢
      by_cases hij : j = i
      · subst hij
        rw [Function.update_same] at hj
        rcases hj with hj | hj <;> simp at hj
      · rw [Function.update_noteq hij] at hj
        exact hlock j hj
    · intro j hj
      dsimp only at hj ⊢
      by_cases hij : j = i
      · subst hij
        rw [Function.update_same] at hj
        simp at hj
      · rw [Function.update_noteq hij] at hj
        exact hrefexp j hj
    · intro hexp2 j
      dsimp only at hexp2 ⊢
      by_cases hij : j = i
      · subst hij
        rw [Function.update_same]
        simp
      · rw [Function.update_noteq hij]
        exact hnodone hexp2 j
  | observeFresh i hpc hexp =>
    refine ⟨?_, hiff, hle, ?_, ?_⟩
    · intro j hj
      dsimp only at hj ⊢
      by_cases hij : j = i
      · subst hij
        rw [Function.update_same] at hj
        rcases hj with hj | hj <;> simp at hj
      · rw [Function.update_noteq hij] at hj
        exact hlock j hj
    · intro j hj
      dsimp only at hj ⊢
      by_cases hij : j = i
      · subst hij
        rw [Function.update_same] at hj
        simp at hj
      · rw [Function.update_noteq hij] at hj
        exact hrefexp j hj
    · intro hexp2
      dsimp only at hexp2
      rw [hexp2] at hexp
      simp at hexp
  | acquire i hpc hlock0 =>
    refine ⟨?_, hiff, hle, ?_, ?_⟩
    · intro j hj
      dsimp only at hj ⊢
      by_cases hij : j = i
      · subst hij
        rfl
      · rw [Function.update_noteq hij] at hj
        have hcontra := hlock j hj
        rw [hlock0] at hcontra
        simp at hcontra
    · intro j hj
      dsimp only at hj ⊢
      by_cases hij : j = i
      · subst hij
        rw [Function.update_same] at hj
        simp at hj
      · rw [Function.update_noteq hij] at hj
        exact hrefexp j hj
    · intro hexp2 j
      dsimp only at hexp2 ⊢
      by_cases hij : j = i
      · subst hij
        rw [Function.update_same]
        simp
      · rw [Function.update_noteq hij]
        exact hnodone hexp2 j
  | recheckExpired i hpc hexp =>
    refine ⟨?_, hiff, hle, ?_, ?_⟩
    · intro j hj
      dsimp only at hj ⊢
      by_cases hij : j = i
      · subst hij
        exact hlock j (Or.inl hpc)
      · rw [Function.update_noteq hij] at hj
        exact hlock j hj
    · intro j hj
      exact hexp
    · intro hexp2 j
      dsimp only at hexp2 ⊢
      by_cases hij : j = i
      · subst hij
        rw [Function.update_same]
        simp
      · rw [Function.update_noteq hij]
        exact hnodone hexp2 j
  | recheckFresh i hpc hexp =>
    refine ⟨?_, hiff, hle, ?_, ?_⟩
    · intro j hj
      dsimp only at hj ⊢
      by_cases hij : j = i
      · subst hij
        rw [Function.update_same] at hj
        rcases hj with hj | hj <;> simp at hj
      · rw [Function.update_noteq hij] at hj
        have h1 := hlock j hj
        have h2 := hlock i (Or.inl hpc)
        rw [h1] at h2
        exact absurd (Option.some.inj h2) hij
    · intro j hj
      dsimp only at hj ⊢
      by_cases hij : j = i
      · subst hij
        rw [Function.update_same] at hj
        simp at hj
      · rw [Function.update_noteq hij] at hj
        exact hrefexp j hj
    · intro hexp2
      dsimp only at hexp2
      rw [hexp2] at hexp
      simp at hexp
  | doRefresh i hpc =>
    have hexpS := hrefexp i hpc
    have hcount0 := hiff.mp hexpS
    refine ⟨?_, ?_, ?_, ?_, ?_⟩
    · intro j hj
      dsimp only at hj ⊢
      by_cases hij : j = i
      · subst hij
        rw [Function.update_same] at hj
        rcases hj with hj | hj <;> simp at hj
      · rw [Function.update_noteq hij] at hj
        have h1 := hlock j hj
        have h2 := hlock i (Or.inr hpc)
        rw [h1] at h2
        exact absurd (Option.some.inj h2) hij
    · dsimp only
      simp [hcount0]
    · dsimp only
      omega
    · intro j hj
      dsimp only at hj ⊢
      by_cases hij : j = i
      · subst hij
        rw [Function.update_same] at hj
        simp at hj
      · rw [Function.update_noteq hij] at hj
        have h1 := hlock j (Or.inr hj)
        have h2 := hlock i (Or.inr hpc)
        rw [h1] at h2
        exact absurd (Option.some.inj h2) hij
    · intro hexp2
      dsimp only at hexp2
      simp at hexp2

theorem tokenManagerInv_reach {n : Nat} {s : TokenManagerState n}
    (h : Relation.ReflTransGen (TokenManagerStep n) (tokenManagerInit n) s) :
    tokenManagerInv s := by
  induction h with
  | refl => exact tokenManagerInv_init n
  | tail _ hstep ih => exact tokenManagerInv_step ih hstep

/-- C9.  Under the asyncio interleaving semantics of
TokenManager.get_valid_token, starting from an expired token with N ≥ 1
concurrent callers and the refresh lock free, every complete run (all
callers returned) issues exactly one authenticator.refresh_access_token
call: the callers serialize on _refresh_lock and re-check expiry after
acquiring it (the double-check in _refresh_token), so the first caller
refreshes and every other caller observes the fresh token and returns
without refreshing. -/
theorem single_refresh_under_contention
    (n : Nat) (hn : 1 ≤ n) (s : TokenManagerState n)
    (hreach : Relation.ReflTransGen (TokenManagerStep n) (tokenManagerInit n) s)
    (hdone : ∀ i, s.pcs i = .done) :
    s.refreshCount = 1 := by
  obtain ⟨hlock, hiff, hle, hrefexp, hnodone⟩ := tokenManagerInv_reach hreach
  by_cases hexp : s.expired = true
  · exact absurd (hdone ⟨0, by omega⟩) (hnodone hexp ⟨0, by omega⟩)
  · have h0 : s.refreshCount ≠ 0 := fun h0 => hexp (hiff.mpr h0)
    omega

/-- Closed witness for C9: a complete single-caller run — observe expiry,
acquire the lock, re-check, refresh, return — reaches a terminal state with
exactly one refresh issued. -/
theorem single_refresh_under_contention_witness :
    Relation.ReflTransGen (TokenManagerStep 1) (tokenManagerInit 1)
      { pcs := Function.update (Function.update (Function.update
          (Function.update (fun _ => TaskPC.start) 0 TaskPC.waiting)
          0 TaskPC.locked) 0 TaskPC.refreshing) 0 TaskPC.done,
        lock := none, expired := false, refreshCount := 0 + 1 } ∧
    (∀ i : Fin 1,
      ({ pcs := Function.update (Function.update (Function.update
            (Function.update (fun _ => TaskPC.start) 0 TaskPC.waiting)
            0 TaskPC.locked) 0 TaskPC.refreshing) 0 TaskPC.done,
          lock := none, expired := false,
          refreshCount := 0 + 1 } : TokenManagerState 1).pcs i = TaskPC.done) ∧
    ({ pcs := Function.update (Function.update (Function.update
          (Function.update (fun _ => TaskPC.start) 0 TaskPC.waiting)
          0 TaskPC.locked) 0 TaskPC.refreshing) 0 TaskPC.done,
        lock := none, expired := false,
        refreshCount := 0 + 1 } : TokenManagerState 1).refreshCount = 1 := by
  have hreach : Relation.ReflTransGen (TokenManagerStep 1) (tokenManagerInit 1)
      ({ pcs := Function.update (Function.update (Function.update
          (Function.update (fun _ => TaskPC.start) 0 TaskPC.waiting)
          0 TaskPC.locked) 0 TaskPC.refreshing) 0 TaskPC.done,
         lock := none, expired := false,
         refreshCount := 0 + 1 } : TokenManagerState 1) :=
    Relation.ReflTransGen.tail
      (Relation.ReflTransGen.tail
        (Relation.ReflTransGen.tail
          (Relation.ReflTransGen.tail Relation.ReflTransGen.refl
            (TokenManagerStep.observeExpired (tokenManagerInit 1) 0 rfl rfl))
          (TokenManagerStep.acquire
            { pcs := Function.update (fun _ => TaskPC.start) 0 TaskPC.waiting,
              lock := none, expired := true, refreshCount := 0 }
            0 (by decide) rfl))
        (TokenManagerStep.recheckExpired
          { pcs := Function.update
              (Function.update (fun _ => TaskPC.start) 0 TaskPC.waiting)
              0 TaskPC.locked,
            lock := some 0, expired := true, refreshCount := 0 }
          0 (by decide) rfl))
      (TokenManagerStep.doRefresh
        { pcs := Function.update (Function.update
            (Function.update (fun _ => TaskPC.start) 0 TaskPC.waiting)
            0 TaskPC.locked) 0 TaskPC.refreshing,
          lock := some 0, expired := true, refreshCount := 0 }
        0 (by decide))
  have hdone : ∀ i : Fin 1,
      ({ pcs := Function.update (Function.update (Function.update
            (Function.update (fun _ => TaskPC.start) 0 TaskPC.waiting)
            0 TaskPC.locked) 0 TaskPC.refreshing) 0 TaskPC.done,
          lock := none, expired := false,
          refreshCount := 0 + 1 } : TokenManagerState 1).pcs i = TaskPC.done := by
    decide
  exact ⟨hreach, hdone,
    single_refresh_under_contention 1 (by omega) _ hreach hdone⟩
